import Mathlib

/-
  Verification development for the RAG medical chatbot repository.

  The Python sources are shallowly embedded as pure Lean functions.
  Stateful or effectful code (HTTP calls, file writes, JWT decoding,
  the fuzzy-matching library) is embedded as explicit oracle or state
  passing: every fallible external call becomes an `Except`/`Option`
  valued parameter describing the outcome of that call, and route
  handlers become functions from (request, world of outcomes) to a
  response value.  Python dict results with possibly-absent keys are
  embedded as structures with `Option` fields (an absent key and a
  `None` value both map to `none`).
-/

/-! ## Embedding of `src/src/cache_manager.py` (class CacheManager) -/

/-- Python `\s` whitespace class restricted to ASCII, as used by
`re.sub` in `preprocess_text` and by `str.split`/`str.strip`. -/
def isPySpace (c : Char) : Bool :=
  c == ' ' || c == '\t' || c == '\n' || c == '\r' || c == '\x0b' || c == '\x0c'

/-- ASCII lowercasing of one character, modelling `str.lower` on the
character range the cache ever compares after normalization. -/
def lowerChar (c : Char) : Char :=
  if 'A' ≤ c ∧ c ≤ 'Z' then Char.ofNat (c.toNat + 32) else c

/-- `str.lower` on the character list of a string. -/
def lowerL (l : List Char) : List Char := l.map lowerChar

/-- Models `re.sub(r"\s+", " ", text)`: every maximal run of whitespace
is replaced by a single space.  The Boolean argument records whether the
previous character was whitespace (so a run emits only one space). -/
def collapseAux : Bool → List Char → List Char
  | _, [] => []
  | prevWs, c :: cs =>
    if isPySpace c then
      (if prevWs then collapseAux true cs else ' ' :: collapseAux true cs)
    else c :: collapseAux false cs

/-- Collapse whitespace runs, starting outside a run. -/
def collapseWs (l : List Char) : List Char := collapseAux false l

/-- Models `str.strip()`: drop leading and trailing whitespace. -/
def stripL (l : List Char) : List Char :=
  ((l.dropWhile isPySpace).reverse.dropWhile isPySpace).reverse

/-- Character class `[a-z0-9]`. -/
def isLowerAlphaNum (c : Char) : Bool :=
  (decide ('a' ≤ c) && decide (c ≤ 'z')) || (decide ('0' ≤ c) && decide (c ≤ '9'))

/-- The class kept by the code regex `[^a-z0-9\s]` removal: `[a-z0-9\s]`. -/
def keepCharCode (c : Char) : Bool := isLowerAlphaNum c || isPySpace c

/-- The class the spec describes: lowercase letter, digit, or a space. -/
def keepCharSpec (c : Char) : Bool := isLowerAlphaNum c || c == ' '

/-- `CacheManager.preprocess_text`: the `if not text` guard, then
lowercase, collapse whitespace runs to one space and strip, then delete
every character outside `[a-z0-9\s]`. -/
def preprocess_text (s : String) : String :=
  if s = "" then ""
  else ⟨(stripL (collapseWs (lowerL s.data))).filter keepCharCode⟩

/-- The normalization exactly as the spec words it: lowercase; collapse
every run of whitespace to a single space and trim; then delete every
character that is not a lowercase letter, a digit, or a space. -/
def preprocessSpec (s : String) : String :=
  ⟨(stripL (collapseWs (lowerL s.data))).filter keepCharSpec⟩

/-- One record of the JSON cache document.  `category` is an `Option`
because entries may lack the key (the code reads it with
`item.get("category", "general")`). -/
structure CacheEntry where
  id : Int
  question : String
  answer : String
  keywords : List String
  category : Option String
deriving DecidableEq, Repr

/-- The dict returned by `find_match`/`_exact_match`.  Keys that are
absent or `None` in the Python dict are `none` here (the miss branches
return no `category` key and a `None` answer/question). -/
structure MatchResult where
  matched : Bool
  answer : Option String
  confidence : ℚ
  question : Option String
  category : Option String
deriving DecidableEq, Repr

/-- The unmatched result dict with a given best-score confidence. -/
def missResult (conf : ℚ) : MatchResult :=
  ⟨false, none, conf, none, none⟩

/-- Scan of `CacheManager._exact_match`: first entry whose normalized
question equals the normalized input wins, confidence fixed at 1. -/
def exactMatchScan (pq : String) : List CacheEntry → MatchResult
  | [] => missResult 0
  | e :: rest =>
    if preprocess_text e.question = pq then
      ⟨true, some e.answer, 1, some e.question, some (e.category.getD "general")⟩
    else exactMatchScan pq rest

/-- `CacheManager._exact_match`. -/
def exact_match (cache : List CacheEntry) (q : String) : MatchResult :=
  exactMatchScan (preprocess_text q) cache

/-! ### The token-sort-ratio scorer (rapidfuzz `fuzz.token_sort_ratio`)

The fuzzy library splits each string on whitespace, sorts the tokens,
rejoins them with single spaces, and computes the normalized
insert/delete edit-distance similarity scaled to 0–100. -/

/-- `str.split()` token accumulator: split on whitespace runs, dropping
empty tokens.  The first argument is the current token, reversed. -/
def splitToksAux : List Char → List Char → List (List Char)
  | cur, [] => if cur.isEmpty then [] else [cur.reverse]
  | cur, c :: cs =>
    if isPySpace c then
      if cur.isEmpty then splitToksAux [] cs else cur.reverse :: splitToksAux [] cs
    else splitToksAux (c :: cur) cs

/-- Lexicographic (code-point) order on token character lists, the order
`sorted` uses on Python strings. -/
def lexLeChars : List Char → List Char → Bool
  | [], _ => true
  | _ :: _, [] => false
  | a :: as, b :: bs => if a = b then lexLeChars as bs else decide (a < b)

/-- Insertion step of sorting the token list. -/
def insertTok (t : List Char) : List (List Char) → List (List Char)
  | [] => [t]
  | u :: us => if lexLeChars t u then t :: u :: us else u :: insertTok t us

/-- Sort the tokens lexicographically (insertion sort). -/
def sortToks : List (List Char) → List (List Char)
  | [] => []
  | t :: ts => insertTok t (sortToks ts)

/-- `" ".join(tokens)`. -/
def joinToks : List (List Char) → List Char
  | [] => []
  | [t] => t
  | t :: u :: ts => t ++ ' ' :: joinToks (u :: ts)

/-- Split on whitespace, sort tokens, rejoin with single spaces. -/
def tokenSortL (l : List Char) : List Char :=
  joinToks (sortToks (splitToksAux [] l))

/-- Insert/delete edit distance (Levenshtein without substitution),
the distance underlying rapidfuzz `fuzz.ratio`. -/
def indelDist : List Char → List Char → Nat
  | [], ys => ys.length
  | xs, [] => xs.length
  | x :: xs, y :: ys =>
    if x = y then indelDist xs ys
    else 1 + min (indelDist xs (y :: ys)) (indelDist (x :: xs) ys)
termination_by a b => a.length + b.length

/-- Normalized indel similarity in 0–100, exact rational arithmetic in
place of the library float.  Two empty strings score 100. -/
def indelScore (a b : List Char) : ℚ :=
  if a.length + b.length = 0 then 100
  else (100 * (((a.length + b.length - indelDist a b : Nat)) : ℚ))
        / (((a.length + b.length : Nat)) : ℚ)

/-- rapidfuzz `fuzz.token_sort_ratio` on two (already preprocessed)
strings. -/
def tokenSortSimilarity (s t : String) : ℚ :=
  indelScore (tokenSortL s.data) (tokenSortL t.data)

/-- rapidfuzz `process.extractOne(query, choices, scorer=f)`: best
scoring choice together with its score; on equal scores the earlier
choice is kept (the library keeps a candidate only on a strict
improvement). -/
def extractOne (f : String → ℚ) : List String → Option (String × ℚ)
  | [] => none
  | c :: cs =>
    match extractOne f cs with
    | none => some (c, f c)
    | some (c2, s2) => if f c < s2 then some (c2, s2) else some (c, f c)

/-- Python `list.index` (first index of an equal element; total here,
returning the length when absent — the code only calls it on members). -/
def pyIndex (x : String) : List String → Nat
  | [] => 0
  | y :: ys => if y = x then 0 else pyIndex x ys + 1

/-- Junk entry for the (unreachable) out-of-range branch of list
indexing in the embedding of `self.cache_data[match_index]`. -/
def dummyEntry : CacheEntry := ⟨0, "", "", [], none⟩

/-- `CacheManager.find_match`.  `fuzzyAvailable` embeds
`self.fuzzy_available`; the cache list embeds `self.cache_data` in
load order. -/
def find_match (fuzzyAvailable : Bool) (cache : List CacheEntry)
    (q : String) (threshold : ℚ) : MatchResult :=
  if q = "" ∨ cache = [] then missResult 0
  else if fuzzyAvailable = false then exact_match cache q
  else
    let pq := preprocess_text q
    let pchoices := cache.map (fun e => preprocess_text e.question)
    match extractOne (fun c => tokenSortSimilarity pq c) pchoices with
    | none => missResult 0
    | some (c, score) =>
      if threshold ≤ score then
        let idx := pyIndex c pchoices
        let item := cache.getD idx dummyEntry
        ⟨true, some item.answer, score / 100, some item.question,
          some (item.category.getD "general")⟩
      else missResult (score / 100)

/-- Python `max(list_of_ids, default=0)`. -/
def pyMaxD0 : List Int → Int
  | [] => 0
  | x :: xs => xs.foldl max x

/-- `CacheManager.add_to_cache`.  The entry is appended to the
in-memory list and then the whole document is rewritten; `writeOk`
is the outcome of that file write (an exception is caught and reported
as `false`, after the append already happened). -/
def add_to_cache (cache : List CacheEntry) (q a : String)
    (kw : List String) (cat : String) (writeOk : Bool) :
    List CacheEntry × Bool :=
  let newId := pyMaxD0 (cache.map (fun e => e.id)) + 1
  (cache ++ [⟨newId, q, a, kw, some cat⟩], writeOk)

/-- One call per element of an `add_to_cache` call sequence. -/
structure AddOp where
  q : String
  a : String
  kw : List String
  cat : String
  writeOk : Bool

/-- The in-memory cache after a sequence of `add_to_cache` calls. -/
def applyAdds (cache : List CacheEntry) (ops : List AddOp) : List CacheEntry :=
  ops.foldl (fun c op => (add_to_cache c op.q op.a op.kw op.cat op.writeOk).1) cache

/-- The dict built by `get_cache_stats` (association list preserving
first-seen category order, as a Python dict does). -/
structure CacheStats where
  total_questions : Nat
  categories : List (String × Nat)
deriving DecidableEq, Repr

/-- `categories[cat] = categories.get(cat, 0) + 1` on an association
list. -/
def bumpCat (m : List (String × Nat)) (c : String) : List (String × Nat) :=
  match m with
  | [] => [(c, 1)]
  | (k, v) :: rest => if k = c then (k, v + 1) :: rest else (k, v) :: bumpCat rest c

/-- `CacheManager.get_cache_stats`. -/
def get_cache_stats (cache : List CacheEntry) : CacheStats :=
  ⟨cache.length,
   cache.foldl (fun m e => bumpCat m (e.category.getD "general")) []⟩

/-! ## Embedding of the JWT decode paths
(`src/middleware/auth.py` and `extract_user_id_from_token` in
`src/app.py`).  A token is modelled as the secret it was signed with,
an expiry flag, and its claims; `jwtDecode` embeds PyJWT `jwt.decode`
with HS256 verification (signature checked before expiry). -/

/-- Claims a token may carry; `docId` models the `_id` claim. -/
structure JwtClaims where
  id : Option String
  userId : Option String
  docId : Option String
deriving DecidableEq, Repr

/-- A presented bearer token: either a string PyJWT cannot parse, or a
structurally valid HS256 token. -/
inductive Jwt where
  | garbage (raw : String)
  | signed (secret : String) (expired : Bool) (claims : JwtClaims)
deriving DecidableEq, Repr

/-- PyJWT failure classes the code distinguishes. -/
inductive JwtError where
  | expiredSig
  | invalidTok (detail : String)
deriving DecidableEq, Repr

/-- `jwt.decode(token, secret, algorithms=["HS256"])`. -/
def jwtDecode (secret : String) : Jwt → Except JwtError JwtClaims
  | .garbage _ => .error (.invalidTok "Not enough segments")
  | .signed s exp cl =>
    if s = secret then
      if exp then .error .expiredSig else .ok cl
    else .error (.invalidTok "Signature verification failed")

/-- An `Authorization` header, split into its scheme word and the token
part (`none` when there is no second segment). -/
structure AuthHeader where
  scheme : String
  tokenPart : Option Jwt
deriving Repr

/-- Python string truthiness on an optional claim value: `None` and the
empty string are falsy. -/
def truthyStr : Option String → Option String
  | none => none
  | some s => if s = "" then none else some s

/-- Outcome of the decorator: either a 401 JSON error body
`success=false, error=...` produced before the wrapped handler ever
runs, or the wrapped handler's own result. -/
inductive MwOutcome (α : Type) where
  | rejected (status : Nat) (success : Bool) (error : String)
  | handled (a : α)
deriving DecidableEq, Repr

/-- `middleware/auth.py authenticate_user`: the decorator body.
`jwtSecret` is the configured `JWT_SECRET`; the handler receives the
identity stored into `request.user_id`. -/
def authenticate_user {α : Type} (jwtSecret : String) (handler : String → α)
    (hdr : Option AuthHeader) : MwOutcome α :=
  match hdr with
  | none => .rejected 401 false "Token is missing"
  | some h =>
    match h.tokenPart with
    | none => .rejected 401 false "Invalid token format"
    | some tok =>
      match jwtDecode jwtSecret tok with
      | .error .expiredSig => .rejected 401 false "Token has expired"
      | .error (.invalidTok d) => .rejected 401 false ("Invalid token: " ++ d)
      | .ok cl =>
        match truthyStr cl.userId with
        | some uid => .handled (handler uid)
        | none =>
          match truthyStr cl.docId with
          | some uid => .handled (handler uid)
          | none => .rejected 401 false "Invalid token"

/-- `app.py extract_user_id_from_token`: the inline, permissive decode.
`accessTokenSecret` is `ACCESS_TOKEN_SECRET` (`none` when the variable
is unset or empty, which the code treats as falsy).  Every failure
collapses to the literal string anonymous. -/
def extract_user_id_from_token (accessTokenSecret : Option String)
    (hdr : Option AuthHeader) : String :=
  match hdr with
  | none => "anonymous"
  | some h =>
    match h.tokenPart, accessTokenSecret with
    | none, _ => "anonymous"
    | some _, none => "anonymous"
    | some tok, some secret =>
      match jwtDecode secret tok with
      | .error _ => "anonymous"
      | .ok cl =>
        match truthyStr cl.id with
        | some uid => uid
        | none => "anonymous"

/-! ## Embedding of `src/src/voice_handler.py speech_to_text` -/

/-- The dict `speech_to_text` returns on success. -/
structure SttResult where
  text : String
  language : Option String
  confidence : Option ℚ
deriving DecidableEq, Repr

/-- One element of the provider `segments` array: a JSON object with an
optional numeric `confidence`, or a non-object value (skipped by the
`isinstance(s, dict)` filter). -/
inductive SegVal where
  | dict (confidence : Option ℚ)
  | nondict
deriving DecidableEq, Repr

/-- The decoded provider response body: a JSON object (with optional
`text`, `language` and `segments` keys; a present-but-not-a-list
`segments` value is embedded as `none`), a bare JSON string, or any
other JSON value. -/
inductive SttBody where
  | obj (text : Option String) (language : Option String)
        (segments : Option (List SegVal))
  | strBody (s : String)
  | otherBody
deriving DecidableEq, Repr

/-- Outcome of the transcription request: a raised exception (network
failure or base64 decode error) or an HTTP response. -/
inductive SttOutcome where
  | exn (msg : String)
  | httpResp (status : Nat) (body : SttBody)
deriving DecidableEq, Repr

/-- The per-segment confidences that are actually reported: segments
that are JSON objects and whose `confidence` is not `None`. -/
def segConfs (segments : Option (List SegVal)) : List ℚ :=
  match segments with
  | none => []
  | some l => l.filterMap (fun sv => match sv with | .dict c => c | .nondict => none)

/-- The averaged confidence: computed only when `segments` is a
nonempty list (the `isinstance and segments` guard) and at least one
segment reports a confidence. -/
def meanConfs (segments : Option (List SegVal)) : Option ℚ :=
  match segments with
  | none => none
  | some [] => none
  | some (s0 :: rest) =>
    if segConfs (some (s0 :: rest)) = [] then none
    else some ((segConfs (some (s0 :: rest))).sum
               / ((segConfs (some (s0 :: rest))).length : ℚ))

/-- `MultilingualVoiceHandler.speech_to_text`.  `audioData` is the
base64 payload (empty embeds the falsy guard), `w` the outcome of the
decode-and-upload.  Every failure path returns `none`; no exception
escapes. -/
def speech_to_text (audioData : String) (w : SttOutcome) : Option SttResult :=
  if audioData = "" then none
  else
    match w with
    | .exn _ => none
    | .httpResp status body =>
      if status = 200 then
        match body with
        | .obj t lang segs => some ⟨t.getD "", lang, meanConfs segs⟩
        | .strBody s => some ⟨s, none, none⟩
        | .otherBody => some ⟨"", none, none⟩
      else none

/-! ## Embedding of the Flask routes in `src/app.py` -/

/-- Needle-at-front test on character lists. -/
def startsWithL : List Char → List Char → Bool
  | [], _ => true
  | _ :: _, [] => false
  | a :: as, b :: bs => a == b && startsWithL as bs

/-- Python `needle in haystack` on character lists. -/
def occursIn (needle : List Char) : List Char → Bool
  | [] => needle.isEmpty
  | c :: t => startsWithL needle (c :: t) || occursIn needle t

/-- `str.strip()` on strings. -/
def pyStrip (s : String) : String := ⟨stripL s.data⟩

/-- `str.lower()` on strings. -/
def lowerStr (s : String) : String := ⟨lowerL s.data⟩

/-- The form fields the WhatsApp webhook reads (each with the default
the code supplies when the key is absent). -/
structure WhatsAppForm where
  body : String
  fromNumber : String
  mediaUrl : String
  mediaType : String
  numMedia : String

/-- Outcomes of every external call the webhook can make, plus
`outerErr`, which models any exception raised in the handler body
outside the explicitly embedded calls (caught by the outermost
`except`). -/
structure WhatsAppWorld where
  outerErr : Option String
  download : Except String (Nat × String)
  sttOutcome : SttOutcome
  saveUserOutcome : Except String (Nat × String)
  ai : Except String String
  saveBotOutcome : Except String (Nat × String)

/-- The Twilio `MessagingResponse` serialization: one `Message` element
per message in a `Response` document. -/
def twiml (msgs : List String) : String :=
  "<?xml version=\"1.0\" encoding=\"UTF-8\"?><Response>"
    ++ String.join (msgs.map (fun m => "<Message>" ++ m ++ "</Message>"))
    ++ "</Response>"

/-- A Flask `(body, status, headers)` triple with a `Content-Type`. -/
structure XmlResponse where
  body : String
  status : Nat
  contentType : String
deriving DecidableEq, Repr

/-- `app.py save_message_to_node`: posts to the Node backend and
swallows every failure; returns the response body on 200/201, else
`None`, never raising. -/
def save_message_to_node (_sender _text : String) (_audioData _sessionId : Option String)
    (outcome : Except String (Nat × String)) : Option String :=
  match outcome with
  | .error _ => none
  | .ok (st, respBody) => if st = 200 ∨ st = 201 then some respBody else none

/-- The fixed fallback string of `get_ai_response`. -/
def aiApology : String :=
  "I apologize, but I\x27m having trouble generating a response right now. Please try again."

/-- `app.py get_ai_response`: the RAG chain outcome, with every
exception converted to the fixed apology string. -/
def get_ai_response (rag : Except String String) : String :=
  match rag with
  | .ok ans => ans
  | .error _ => aiApology

/-- The apology of the webhook voice-processing `except` branch. -/
def voiceApology : String :=
  "Sorry, I couldn\x27t process your voice message. Please try sending a text message instead or try recording again."

/-- The apology of the webhook outermost `except` branch. -/
def genericApology : String :=
  "Sorry, something went wrong. Please try again later."

/-- The voice-branch condition:
`media_url and media_type and "audio" in media_type.lower()`. -/
def isVoiceMsg (f : WhatsAppForm) : Bool :=
  !(f.mediaUrl == "") && !(f.mediaType == "")
    && occursIn "audio".data (lowerStr f.mediaType).data

/-- `app.py whatsapp_webhook` (`POST /whatsapp`). -/
def whatsapp_webhook (w : WhatsAppWorld) (f : WhatsAppForm) : XmlResponse :=
  match w.outerErr with
  | some _ => ⟨twiml [genericApology], 200, "text/xml"⟩
  | none =>
    let incoming := pyStrip f.body
    let userPhone := String.intercalate "" (f.fromNumber.splitOn "whatsapp:")
    let sessionId := "whatsapp_" ++ userPhone
    if isVoiceMsg f then
      match w.download with
      | .error _ => ⟨twiml [voiceApology], 200, "text/xml"⟩
      | .ok (st, contentB64) =>
        if st ≠ 200 then ⟨twiml [voiceApology], 200, "text/xml"⟩
        else
          match speech_to_text contentB64 w.sttOutcome with
          | none => ⟨twiml [voiceApology], 200, "text/xml"⟩
          | some r =>
            if r.text = "" then ⟨twiml [voiceApology], 200, "text/xml"⟩
            else
              let _ := save_message_to_node "user" r.text (some contentB64)
                        (some sessionId) w.saveUserOutcome
              let answer := get_ai_response w.ai
              let _ := save_message_to_node "bot" answer none
                        (some sessionId) w.saveBotOutcome
              ⟨twiml ["🎤 You said: *" ++ r.text ++ "*\n\n" ++ answer],
               200, "text/xml"⟩
    else if incoming ≠ "" then
      let _ := save_message_to_node "user" incoming none
                (some sessionId) w.saveUserOutcome
      let answer := get_ai_response w.ai
      let _ := save_message_to_node "bot" answer none
                (some sessionId) w.saveBotOutcome
      ⟨twiml [answer], 200, "text/xml"⟩
    else ⟨twiml [], 200, "text/xml"⟩

/-- The JSON body `POST /whatsapp/send` parses (`to`/`message` keys,
each possibly absent; the `to` key is named `toNum` here because `to`
is reserved in Lean). -/
structure SendBody where
  toNum : Option String
  message : Option String
deriving DecidableEq, Repr

/-- A JSON response of `/whatsapp/send`: status code plus the keys the
handler may emit. -/
structure SendResp where
  status : Nat
  success : Option Bool
  message_sid : Option String
  sendStatus : Option String
  error : Option String
deriving DecidableEq, Repr

/-- `to_number` prefix fix-up before the Twilio send. -/
def ensureWaNum (toN : String) : String :=
  if startsWithL "whatsapp:".data toN.data then toN else "whatsapp:" ++ toN

/-- `app.py send_whatsapp_message` (`POST /whatsapp/send`).
`client` is the module-level Twilio client (`none` when the account
credentials were never configured); `body` is the outcome of
`request.get_json()` (`error` when parsing raises, caught by the
handler `except`); `send` is the Twilio send outcome giving
`(sid, status)`.  The configuration check runs before any body
parsing or field validation. -/
def send_whatsapp_message (client : Option Unit)
    (body : Except String SendBody)
    (send : Except String (String × String)) : SendResp :=
  match client with
  | none => ⟨500, none, none, none, some "Twilio not configured"⟩
  | some _ =>
    match body with
    | .error e => ⟨500, none, none, none, some e⟩
    | .ok b =>
      match truthyStr b.toNum, truthyStr b.message with
      | some toN, some _msg =>
        let _ := ensureWaNum toN
        match send with
        | .error e => ⟨500, none, none, none, some e⟩
        | .ok (sid, st) => ⟨200, some true, some sid, some st, none⟩
      | _, _ => ⟨400, none, none, none, some "Missing \x27to\x27 or \x27message\x27"⟩

/-! ## Helper lemmas -/

theorem mem_dropWhileL {p : Char → Bool} :
    ∀ (l : List Char) (c : Char), c ∈ l.dropWhile p → c ∈ l := by
  intro l c
  induction l with
  | nil => simp
  | cons d ds ih =>
    simp only [List.dropWhile]
    intro h
    by_cases hd : p d
    · simp only [hd] at h
      exact List.mem_cons_of_mem _ (ih h)
    · simp only [Bool.not_eq_true] at hd
      simp only [hd] at h
      exact h

theorem mem_stripL {c : Char} {l : List Char} (h : c ∈ stripL l) : c ∈ l := by
  unfold stripL at h
  rw [List.mem_reverse] at h
  have h1 := mem_dropWhileL _ _ h
  rw [List.mem_reverse] at h1
  exact mem_dropWhileL _ _ h1

theorem mem_collapseAux :
    ∀ (l : List Char) (b : Bool) (c : Char),
      c ∈ collapseAux b l → c = ' ' ∨ (isPySpace c = false ∧ c ∈ l) := by
  intro l
  induction l with
  | nil => simp [collapseAux]
  | cons d ds ih =>
    intro b c h
    simp only [collapseAux] at h
    by_cases hd : isPySpace d
    · simp only [hd, if_true] at h
      cases b with
      | true =>
        simp only [if_true] at h
        rcases ih true c h with h1 | h1
        · exact Or.inl h1
        · exact Or.inr ⟨h1.1, List.mem_cons_of_mem _ h1.2⟩
      | false =>
        rw [if_neg Bool.false_ne_true] at h
        rcases List.mem_cons.mp h with h1 | h1
        · exact Or.inl h1
        · rcases ih true c h1 with h2 | h2
          · exact Or.inl h2
          · exact Or.inr ⟨h2.1, List.mem_cons_of_mem _ h2.2⟩
    · simp only [Bool.not_eq_true] at hd
      simp only [hd] at h
      rcases List.mem_cons.mp h with h1 | h1
      · subst h1
        exact Or.inr ⟨hd, List.mem_cons_self _ _⟩
      · rcases ih false c h1 with h2 | h2
        · exact Or.inl h2
        · exact Or.inr ⟨h2.1, List.mem_cons_of_mem _ h2.2⟩

theorem keepChar_agree {c : Char}
    (h : c = ' ' ∨ isPySpace c = false) : keepCharCode c = keepCharSpec c := by
  rcases h with h | h
  · subst h; rfl
  · unfold keepCharCode keepCharSpec
    rw [h]
    have hc : (c == ' ') = false := by
      cases hcc : c == ' ' with
      | false => rfl
      | true =>
        exfalso
        have hce : c = ' ' := beq_iff_eq.mp hcc
        subst hce
        exact absurd h (by decide)
    rw [hc]

theorem preprocess_text_eq_spec (s : String) : preprocess_text s = preprocessSpec s := by
  by_cases hs : s = ""
  · subst hs
    rfl
  · unfold preprocess_text preprocessSpec
    rw [if_neg hs]
    have hfilter :
        (stripL (collapseWs (lowerL s.data))).filter keepCharCode
          = (stripL (collapseWs (lowerL s.data))).filter keepCharSpec := by
    
      apply List.filter_congr
      intro c hc
      apply keepChar_agree
      have hcc := mem_stripL hc
      rcases mem_collapseAux _ _ _ hcc with h1 | h1
      · exact Or.inl h1
      · exact Or.inr h1.1
    rw [hfilter]

theorem exactMatchScan_of_exists :
    ∀ (cache : List CacheEntry) (pq : String),
      (∃ e ∈ cache, preprocess_text e.question = pq) →
      (exactMatchScan pq cache).matched = true ∧
      (exactMatchScan pq cache).confidence = 1 ∧
      ∃ e ∈ cache, preprocess_text e.question = pq ∧
        (exactMatchScan pq cache).answer = some e.answer ∧
        (exactMatchScan pq cache).question = some e.question ∧
        (exactMatchScan pq cache).category = some (e.category.getD "general") := by
  intro cache
  induction cache with
  | nil => simp
  | cons d ds ih =>
    intro pq hex
    by_cases hd : preprocess_text d.question = pq
    · refine ⟨?_, ?_, d, List.mem_cons_self _ _, hd, ?_, ?_, ?_⟩ <;>
        simp [exactMatchScan, hd]
    · have hex2 : ∃ e ∈ ds, preprocess_text e.question = pq := by
        rcases hex with ⟨e, he, hpe⟩
        rcases List.mem_cons.mp he with h1 | h1
        · exact absurd (h1 ▸ hpe) hd
        · exact ⟨e, h1, hpe⟩
      have hscan : exactMatchScan pq (d :: ds) = exactMatchScan pq ds := by
        simp [exactMatchScan, hd]
      rcases ih pq hex2 with ⟨h1, h2, e, he, hpe, h3, h4, h5⟩
      exact ⟨hscan ▸ h1, hscan ▸ h2, e, List.mem_cons_of_mem _ he, hpe,
             hscan ▸ h3, hscan ▸ h4, hscan ▸ h5⟩

theorem exactMatchScan_of_none :
    ∀ (cache : List CacheEntry) (pq : String),
      (∀ e ∈ cache, preprocess_text e.question ≠ pq) →
      exactMatchScan pq cache = missResult 0 := by
  intro cache
  induction cache with
  | nil => intro pq _; rfl
  | cons d ds ih =>
    intro pq hall
    have hd : preprocess_text d.question ≠ pq := hall d (List.mem_cons_self _ _)
    have : exactMatchScan pq (d :: ds) = exactMatchScan pq ds := by
      simp [exactMatchScan, hd]
    rw [this]
    exact ih pq (fun e he => hall e (List.mem_cons_of_mem _ he))

theorem foldlMax_le_self : ∀ (xs : List Int) (a : Int), a ≤ xs.foldl max a := by
  intro xs
  induction xs with
  | nil => intro a; simp
  | cons x xs ih =>
    intro a
    calc a ≤ max a x := le_max_left _ _
    _ ≤ xs.foldl max (max a x) := ih _
    _ = (x :: xs).foldl max a := rfl

theorem foldlMax_le_of_mem :
    ∀ (xs : List Int) (a y : Int), y ∈ xs → y ≤ xs.foldl max a := by
  intro xs
  induction xs with
  | nil => simp
  | cons x xs ih =>
    intro a y hy
    rcases List.mem_cons.mp hy with h1 | h1
    · subst h1
      calc y ≤ max a y := le_max_right _ _
      _ ≤ xs.foldl max (max a y) := foldlMax_le_self _ _
      _ = (y :: xs).foldl max a := rfl
    · exact ih _ y h1

theorem foldlMax_mem :
    ∀ (xs : List Int) (a : Int), xs.foldl max a = a ∨ xs.foldl max a ∈ xs := by
  intro xs
  induction xs with
  | nil => intro a; exact Or.inl rfl
  | cons x xs ih =>
    intro a
    rcases ih (max a x) with h1 | h1
    · rcases max_choice a x with h2 | h2
      · exact Or.inl (by rw [show (x :: xs).foldl max a = xs.foldl max (max a x) from rfl, h1, h2])
      · exact Or.inr (by rw [show (x :: xs).foldl max a = xs.foldl max (max a x) from rfl, h1, h2]; exact List.mem_cons_self _ _)
    · exact Or.inr (List.mem_cons_of_mem _ h1)

theorem le_pyMaxD0 {l : List Int} {y : Int} (hy : y ∈ l) : y ≤ pyMaxD0 l := by
  cases l with
  | nil => simp at hy
  | cons x xs =>
    rcases List.mem_cons.mp hy with h1 | h1
    · subst h1; exact foldlMax_le_self _ _
    · exact foldlMax_le_of_mem _ _ _ h1

theorem pyMaxD0_mem {l : List Int} (hl : l ≠ []) : pyMaxD0 l ∈ l := by
  cases l with
  | nil => exact absurd rfl hl
  | cons x xs =>
    rcases foldlMax_mem xs x with h1 | h1
    · rw [show pyMaxD0 (x :: xs) = xs.foldl max x from rfl, h1]
      exact List.mem_cons_self _ _
    · exact List.mem_cons_of_mem _ h1

theorem pyMaxD0_succ_not_mem (l : List Int) : pyMaxD0 l + 1 ∉ l := by
  intro hmem
  have h1 := le_pyMaxD0 hmem
  omega

theorem nodup_concat_of_not_mem {l : List Int} {a : Int}
    (hn : l.Nodup) (ha : a ∉ l) : (l ++ [a]).Nodup := by
  rw [List.nodup_append]
  refine ⟨hn, List.nodup_singleton _, ?_⟩
  intro x hx hxa
  rcases List.mem_singleton.mp hxa with rfl
  exact ha hx

theorem extractOne_ne_none (f : String → ℚ) (c : String) (cs : List String) :
    extractOne f (c :: cs) ≠ none := by
  cases h : extractOne f cs with
  | none => simp [extractOne, h]
  | some p =>
    obtain ⟨c2, s2⟩ := p
    by_cases hlt : f c < s2 <;> simp [extractOne, h, hlt]

theorem extractOne_spec (f : String → ℚ) :
    ∀ (l : List String) (c : String) (s : ℚ),
      extractOne f l = some (c, s) →
      s = f c ∧
      (∃ l₁ l₂, l = l₁ ++ c :: l₂ ∧ (∀ x ∈ l₁, f x < s)) ∧
      (∀ x ∈ l, f x ≤ s) := by
  intro l
  induction l with
  | nil => intro c s h; simp [extractOne] at h
  | cons d ds ih =>
    intro c s h
    cases hds : extractOne f ds with
    | none =>
      have hnil : ds = [] := by
        cases ds with
        | nil => rfl
        | cons e es => exact absurd hds (extractOne_ne_none f e es)
      subst hnil
      simp only [extractOne] at h
      have hc : c = d := by
        have := Option.some.inj h
        exact (Prod.mk.injEq .. ▸ this).1.symm
      have hs : s = f d := by
        have := Option.some.inj h
        exact (Prod.mk.injEq .. ▸ this).2.symm
      subst hc; subst hs
      refine ⟨rfl, ⟨[], [], rfl, by simp⟩, ?_⟩
      intro x hx
      rcases List.mem_singleton.mp hx with rfl
      exact le_refl _
    | some p =>
      obtain ⟨c2, s2⟩ := p
      rcases ih c2 s2 hds with ⟨hs2, ⟨l₁, l₂, hdecomp, hlt⟩, hub⟩
      simp only [extractOne, hds] at h
      by_cases hcase : f d < s2
      · rw [if_pos hcase] at h
        have hc : c = c2 := by
          have := Option.some.inj h
          exact (Prod.mk.injEq .. ▸ this).1.symm
        have hs : s = s2 := by
          have := Option.some.inj h
          exact (Prod.mk.injEq .. ▸ this).2.symm
        subst hc; subst hs
        refine ⟨hs2, ⟨d :: l₁, l₂, by rw [hdecomp]; rfl, ?_⟩, ?_⟩
        · intro x hx
          rcases List.mem_cons.mp hx with rfl | hx2
          · exact hcase
          · exact hlt x hx2
        · intro x hx
          rcases List.mem_cons.mp hx with rfl | hx2
          · exact le_of_lt hcase
          · exact hub x hx2
      · rw [if_neg hcase] at h
        have hc : c = d := by
          have := Option.some.inj h
          exact (Prod.mk.injEq .. ▸ this).1.symm
        have hs : s = f d := by
          have := Option.some.inj h
          exact (Prod.mk.injEq .. ▸ this).2.symm
        subst hc; subst hs
        push_neg at hcase
        refine ⟨rfl, ⟨[], ds, rfl, by simp⟩, ?_⟩
        intro x hx
        rcases List.mem_cons.mp hx with rfl | hx2
        · exact le_refl _
        · exact le_trans (hub x hx2) hcase

theorem pyIndex_concat (c : String) :
    ∀ (l₁ : List String) (l₂ : List String),
      (∀ x ∈ l₁, x ≠ c) → pyIndex c (l₁ ++ c :: l₂) = l₁.length := by
  intro l₁
  induction l₁ with
  | nil => intro l₂ _; simp [pyIndex]
  | cons d ds ih =>
    intro l₂ hne
    have hd : d ≠ c := hne d (List.mem_cons_self _ _)
    simp only [List.cons_append, pyIndex, if_neg hd, List.length_cons]
    rw [show ds.append (c :: l₂) = ds ++ c :: l₂ from rfl,
        ih l₂ (fun x hx => hne x (List.mem_cons_of_mem _ hx))]

theorem getD_append_length {α : Type} (d : α) :
    ∀ (l₁ : List α) (c : α) (l₂ : List α),
      (l₁ ++ c :: l₂).getD l₁.length d = c := by
  intro l₁
  induction l₁ with
  | nil => intro c l₂; rfl
  | cons a as ih => intro c l₂; simpa using ih c l₂

theorem getD_append_lt {α : Type} (d : α) :
    ∀ (l₁ l₂ : List α) (j : Nat), j < l₁.length →
      (l₁ ++ l₂).getD j d = l₁.getD j d := by
  intro l₁
  induction l₁ with
  | nil => intro l₂ j hj; simp at hj
  | cons a as ih =>
    intro l₂ j hj
    cases j with
    | zero => rfl
    | succ j =>
      simp only [List.cons_append, List.getD_cons_succ]
      exact ih l₂ j (by simpa using hj)

theorem getD_map_of_lt {α β : Type} (g : α → β) (d : α) (db : β) :
    ∀ (l : List α) (i : Nat), i < l.length →
      (l.map g).getD i db = g (l.getD i d) := by
  intro l
  induction l with
  | nil => intro i hi; simp at hi
  | cons a as ih =>
    intro i hi
    cases i with
    | zero => rfl
    | succ i =>
      simp only [List.map_cons, List.getD_cons_succ]
      exact ih i (by simpa using hi)

theorem getD_mem_of_lt {α : Type} (d : α) :
    ∀ (l : List α) (i : Nat), i < l.length → l.getD i d ∈ l := by
  intro l
  induction l with
  | nil => intro i hi; simp at hi
  | cons a as ih =>
    intro i hi
    cases i with
    | zero => exact List.mem_cons_self _ _
    | succ i =>
      simp only [List.getD_cons_succ]
      exact List.mem_cons_of_mem _ (ih i (by simpa using hi))

theorem applyAdds_nodup :
    ∀ (ops : List AddOp) (cache : List CacheEntry),
      (cache.map (fun x => x.id)).Nodup →
      ((applyAdds cache ops).map (fun x => x.id)).Nodup := by
  intro ops
  induction ops with
  | nil => intro cache h; exact h
  | cons op ops ih =>
    intro cache h
    have hstep :
        (((add_to_cache cache op.q op.a op.kw op.cat op.writeOk).1).map
          (fun x => x.id)).Nodup := by
      unfold add_to_cache
      simp only [List.map_append, List.map_cons, List.map_nil]
      exact nodup_concat_of_not_mem h (pyMaxD0_succ_not_mem _)
    exact ih _ hstep

theorem find_match_exact_unfold (cache : List CacheEntry) (q : String) (thr : ℚ)
    (hq : q ≠ "") (hc : cache ≠ []) :
    find_match false cache q thr = exactMatchScan (preprocess_text q) cache := by
  unfold find_match
  rw [if_neg (not_or.mpr ⟨hq, hc⟩), if_pos rfl]
  rfl

/-! ## Claim theorems -/

/-- C5: for every input string, `preprocess_text` equals the composition,
in order: lowercase; collapse every whitespace run to one space and trim;
then delete every character that is not a lowercase letter, a digit, or a
space; and on the concrete input of the spec it yields the spec output. -/
theorem C5_preprocess_is_composition :
    (∀ s : String, preprocess_text s = preprocessSpec s) ∧
    preprocess_text "  The Flu!! 123 " = "the flu 123" :=
  ⟨preprocess_text_eq_spec, by decide⟩

/-- C6: with the fuzzy library unavailable, `find_match` on a non-empty
question and cache falls back to exact matching on normalized forms: a
normalized-equal cached question yields a match with confidence 1 and that
stored answer; no normalized-equal cached question yields no match,
confidence 0 and no answer. -/
theorem C6_find_match_exact_fallback :
    ∀ (cache : List CacheEntry) (q : String) (thr : ℚ),
      q ≠ "" → cache ≠ [] →
      ((∃ e ∈ cache, preprocess_text e.question = preprocess_text q) →
        (find_match false cache q thr).matched = true ∧
        (find_match false cache q thr).confidence = 1 ∧
        ∃ e ∈ cache, preprocess_text e.question = preprocess_text q ∧
          (find_match false cache q thr).answer = some e.answer ∧
          (find_match false cache q thr).question = some e.question) ∧
      ((∀ e ∈ cache, preprocess_text e.question ≠ preprocess_text q) →
        (find_match false cache q thr).matched = false ∧
        (find_match false cache q thr).confidence = 0 ∧
        (find_match false cache q thr).answer = none) := by
  intro cache q thr hq hc
  rw [find_match_exact_unfold cache q thr hq hc]
  constructor
  · intro hex
    rcases exactMatchScan_of_exists cache (preprocess_text q) hex with
      ⟨h1, h2, e, he, hpe, h3, h4, _⟩
    exact ⟨h1, h2, e, he, hpe, h3, h4⟩
  · intro hnone
    rw [exactMatchScan_of_none cache (preprocess_text q) hnone]
    exact ⟨rfl, rfl, rfl⟩

/-- C6 witness: a concrete single-entry cache where the normalized forms
agree, driven through the exact-match fallback. -/
theorem C6_find_match_exact_fallback_witness :
    (find_match false [⟨1, "What is diabetes?", "ans", [], none⟩]
      "what is DIABETES!" 85).matched = true :=
  ((C6_find_match_exact_fallback [⟨1, "What is diabetes?", "ans", [], none⟩]
      "what is DIABETES!" 85 (by decide) (by decide)).1 (by decide)).1

/-- C4: `add_to_cache` appends one entry whose id is 1 on an empty cache
and the maximum existing id plus one otherwise, so the new id differs
from every existing id, and any sequence of `add_to_cache` calls
preserves distinctness of the ids. -/
theorem C4_add_to_cache_ids_unique :
    ∀ (cache : List CacheEntry) (q a : String) (kw : List String)
      (cat : String) (wOk : Bool),
      (∃ e : CacheEntry,
        (add_to_cache cache q a kw cat wOk).1 = cache ++ [e] ∧
        e.question = q ∧ e.answer = a ∧
        (cache = [] → e.id = 1) ∧
        (cache ≠ [] → ∃ m : Int, m ∈ cache.map (fun x => x.id) ∧
          (∀ y ∈ cache.map (fun x => x.id), y ≤ m) ∧ e.id = m + 1) ∧
        (∀ e2 ∈ cache, e2.id ≠ e.id)) ∧
      (∀ ops : List AddOp,
        (cache.map (fun x => x.id)).Nodup →
        ((applyAdds cache ops).map (fun x => x.id)).Nodup) := by
  intro cache q a kw cat wOk
  constructor
  · refine ⟨⟨pyMaxD0 (cache.map (fun x => x.id)) + 1, q, a, kw, some cat⟩,
      rfl, rfl, rfl, ?_, ?_, ?_⟩
    · intro hnil
      subst hnil
      rfl
    · intro hne
      refine ⟨pyMaxD0 (cache.map (fun x => x.id)), ?_, ?_, rfl⟩
      · exact pyMaxD0_mem (by simpa using hne)
      · intro y hy
        exact le_pyMaxD0 hy
    · intro e2 he2
      have hmem : e2.id ∈ cache.map (fun x => x.id) :=
        List.mem_map_of_mem _ he2
      have hle := le_pyMaxD0 hmem
      intro heq
      have heq2 : e2.id = pyMaxD0 (cache.map (fun x => x.id)) + 1 := heq
      omega
  · intro ops h
    exact applyAdds_nodup ops cache h

/-- C4 witness: a concrete two-entry cache with distinct ids, one
concrete add operation, and the preserved distinctness. -/
theorem C4_add_to_cache_ids_unique_witness :
    ((applyAdds [⟨5, "q1", "a1", [], none⟩, ⟨2, "q2", "a2", [], some "c"⟩]
        [⟨"nq", "na", [], "general", false⟩]).map (fun x => x.id)).Nodup :=
  (C4_add_to_cache_ids_unique
      [⟨5, "q1", "a1", [], none⟩, ⟨2, "q2", "a2", [], some "c"⟩]
      "nq" "na" [] "general" false).2
    [⟨"nq", "na", [], "general", false⟩] (by decide)

/-- C9: `add_to_cache` appends the entry to the in-memory list before the
file write, so when the write fails the call reports failure while the
entry is already in the list, and both `get_cache_stats` and a subsequent
`find_match` observe it. -/
theorem C9_add_to_cache_partial_failure :
    ∀ (cache : List CacheEntry) (q a : String) (kw : List String) (cat : String),
      (add_to_cache cache q a kw cat false).2 = false ∧
      (∃ e : CacheEntry,
        (add_to_cache cache q a kw cat false).1 = cache ++ [e] ∧
        e.question = q ∧ e.answer = a) ∧
      (get_cache_stats (add_to_cache cache q a kw cat false).1).total_questions
        = cache.length + 1 ∧
      (∀ thr : ℚ, q ≠ "" →
        (find_match false (add_to_cache cache q a kw cat false).1 q thr).matched
          = true) := by
  intro cache q a kw cat
  refine ⟨rfl, ⟨⟨pyMaxD0 (cache.map (fun x => x.id)) + 1, q, a, kw, some cat⟩,
    rfl, rfl, rfl⟩, ?_, ?_⟩
  · show ((cache ++ [_]).length) = cache.length + 1
    simp
  · intro thr hq
    have hne : (add_to_cache cache q a kw cat false).1 ≠ [] := by
      unfold add_to_cache
      simp
    rw [find_match_exact_unfold _ q thr hq hne]
    refine (exactMatchScan_of_exists _ (preprocess_text q) ?_).1
    refine ⟨⟨pyMaxD0 (cache.map (fun x => x.id)) + 1, q, a, kw, some cat⟩, ?_, rfl⟩
    unfold add_to_cache
    exact List.mem_append_right _ (List.mem_singleton.mpr rfl)

/-- C9 witness: a concrete failed write after which the new question is
still found by the exact-match scan. -/
theorem C9_add_to_cache_partial_failure_witness :
    (find_match false
      (add_to_cache [⟨1, "old", "oa", [], none⟩] "New Q" "na" [] "general" false).1
      "New Q" 85).matched = true :=
  (C9_add_to_cache_partial_failure [⟨1, "old", "oa", [], none⟩]
      "New Q" "na" [] "general").2.2.2 85 (by decide)

theorem find_match_fuzzy_unfold (cache : List CacheEntry) (q : String) (thr : ℚ)
    (hq : q ≠ "") (hc : cache ≠ []) (c : String) (s : ℚ)
    (hcs : extractOne (fun x => tokenSortSimilarity (preprocess_text q) x)
            (cache.map (fun e => preprocess_text e.question)) = some (c, s)) :
    find_match true cache q thr =
      if thr ≤ s then
        ⟨true,
         some ((cache.getD
           (pyIndex c (cache.map (fun e => preprocess_text e.question)))
           dummyEntry).answer),
         s / 100,
         some ((cache.getD
           (pyIndex c (cache.map (fun e => preprocess_text e.question)))
           dummyEntry).question),
         some ((cache.getD
           (pyIndex c (cache.map (fun e => preprocess_text e.question)))
           dummyEntry).category.getD "general")⟩
      else missResult (s / 100) := by
  simp only [find_match]
  rw [if_neg (not_or.mpr ⟨hq, hc⟩)]
  rw [if_neg (by simp : ¬ (true = false))]
  rw [hcs]

/-- C1: with the fuzzy library available, `find_match` on a non-empty
question and cache computes the maximum token-sort similarity of the
normalized input over all normalized cached questions; at or above the
threshold it matches, with confidence score over 100 and the stored
answer, question and category of the selected entry returned verbatim,
the selected entry being the first in cache-load order attaining the
maximum; below the threshold it reports no match with the same
best-score confidence and no answer. -/
theorem C1_find_match_fuzzy_best :
    ∀ (cache : List CacheEntry) (q : String) (thr : ℚ),
      q ≠ "" → cache ≠ [] →
      ∃ s : ℚ,
        (∃ e ∈ cache,
          tokenSortSimilarity (preprocess_text q) (preprocess_text e.question) = s) ∧
        (∀ e ∈ cache,
          tokenSortSimilarity (preprocess_text q) (preprocess_text e.question) ≤ s) ∧
        (find_match true cache q thr).confidence = s / 100 ∧
        (thr ≤ s → ∃ i : Nat, i < cache.length ∧
          tokenSortSimilarity (preprocess_text q)
            (preprocess_text (cache.getD i dummyEntry).question) = s ∧
          (∀ j, j < i →
            tokenSortSimilarity (preprocess_text q)
              (preprocess_text (cache.getD j dummyEntry).question) < s) ∧
          (find_match true cache q thr).matched = true ∧
          (find_match true cache q thr).answer
            = some (cache.getD i dummyEntry).answer ∧
          (find_match true cache q thr).question
            = some (cache.getD i dummyEntry).question ∧
          (find_match true cache q thr).category
            = some ((cache.getD i dummyEntry).category.getD "general")) ∧
        (s < thr →
          (find_match true cache q thr).matched = false ∧
          (find_match true cache q thr).answer = none ∧
          (find_match true cache q thr).question = none) := by
  intro cache q thr hq hc
  have hpcne : cache.map (fun e => preprocess_text e.question) ≠ [] := by
    simpa using hc
  obtain ⟨c, s, hcs⟩ : ∃ c s,
      extractOne (fun x => tokenSortSimilarity (preprocess_text q) x)
        (cache.map (fun e => preprocess_text e.question)) = some (c, s) := by
    cases hme : extractOne (fun x => tokenSortSimilarity (preprocess_text q) x)
        (cache.map (fun e => preprocess_text e.question)) with
    | none =>
      cases hx : cache.map (fun e => preprocess_text e.question) with
      | nil => exact absurd hx hpcne
      | cons p ps =>
        rw [hx] at hme
        exact absurd hme (extractOne_ne_none _ p ps)
    | some p =>
      obtain ⟨a, b⟩ := p
      exact ⟨a, b, rfl⟩
  obtain ⟨hsfc, ⟨l₁, l₂, hdec, hlt⟩, hub⟩ :=
    extractOne_spec (fun x => tokenSortSimilarity (preprocess_text q) x)
      (cache.map (fun e => preprocess_text e.question)) c s hcs
  have hfm := find_match_fuzzy_unfold cache q thr hq hc c s hcs
  have hmaplen : (cache.map (fun e => preprocess_text e.question)).length
      = cache.length := by simp
  have hilen : l₁.length < cache.length := by
    have h2 : (cache.map (fun e => preprocess_text e.question)).length
        = l₁.length + (l₂.length + 1) := by
      rw [hdec]
      simp [List.length_append]
    omega
  have hne_l1 : ∀ x ∈ l₁, x ≠ c := by
    intro x hx heq
    have hx2 := hlt x hx
    rw [heq, ← hsfc] at hx2
    exact lt_irrefl _ hx2
  have hidx : pyIndex c (cache.map (fun e => preprocess_text e.question))
      = l₁.length := by
    rw [hdec]
    exact pyIndex_concat c l₁ l₂ hne_l1
  have hgetD : (cache.map (fun e => preprocess_text e.question)).getD l₁.length ""
      = c := by
    rw [hdec]
    exact getD_append_length "" l₁ c l₂
  have hgetcache : ∀ j, j < cache.length →
      (cache.map (fun e => preprocess_text e.question)).getD j ""
        = preprocess_text (cache.getD j dummyEntry).question := by
    intro j hj
    exact getD_map_of_lt _ dummyEntry "" cache j hj
  have hscorei : tokenSortSimilarity (preprocess_text q)
      (preprocess_text (cache.getD l₁.length dummyEntry).question) = s := by
    rw [← hgetcache l₁.length hilen, hgetD, hsfc]
  refine ⟨s, ?_, ?_, ?_, ?_, ?_⟩
  · exact ⟨cache.getD l₁.length dummyEntry, getD_mem_of_lt dummyEntry cache l₁.length hilen,
      hscorei⟩
  · intro e he
    exact hub (preprocess_text e.question)
      (List.mem_map_of_mem (fun e => preprocess_text e.question) he)
  · rw [hfm]
    by_cases hts : thr ≤ s
    · rw [if_pos hts]
    · rw [if_neg hts]
      rfl
  · intro hts
    refine ⟨l₁.length, hilen, hscorei, ?_, ?_, ?_, ?_, ?_⟩
    · intro j hj
      have hjlen : j < cache.length := lt_trans hj hilen
      have hj1 : (cache.map (fun e => preprocess_text e.question)).getD j ""
          = l₁.getD j "" := by
        rw [hdec]
        exact getD_append_lt "" l₁ (c :: l₂) j hj
      have hmem1 : l₁.getD j "" ∈ l₁ := getD_mem_of_lt "" l₁ j hj
      have := hlt (l₁.getD j "") hmem1
      rw [← hj1, hgetcache j hjlen] at this
      exact this
    · rw [hfm, if_pos hts]
    · rw [hfm, if_pos hts, hidx]
    · rw [hfm, if_pos hts, hidx]
    · rw [hfm, if_pos hts, hidx]
  · intro hts
    have hts2 : ¬ thr ≤ s := not_le.mpr hts
    rw [hfm, if_neg hts2]
    exact ⟨rfl, rfl, rfl⟩

theorem indelDist_self : ∀ (l : List Char), indelDist l l = 0 := by
  intro l
  induction l with
  | nil => simp [indelDist]
  | cons x xs ih => simp [indelDist, ih]

theorem indelScore_self (l : List Char) : indelScore l l = 100 := by
  unfold indelScore
  by_cases h : l.length + l.length = 0
  · rw [if_pos h]
  · rw [if_neg h, indelDist_self, Nat.sub_zero]
    have hne : ((l.length : ℚ) + l.length) ≠ 0 := by
      have h2 : (l.length + l.length : Nat) ≠ 0 := h
      exact_mod_cast h2
    push_cast
    rw [mul_div_assoc, div_self hne, mul_one]

theorem tokenSortSimilarity_self (s : String) : tokenSortSimilarity s s = 100 :=
  indelScore_self _

/-- C1 witness: a concrete one-entry cache whose normalized question
equals the normalized query, so the best score is 100 and the threshold
85 is met. -/
theorem C1_find_match_fuzzy_best_witness :
    (find_match true [⟨1, "What is diabetes?", "ans", [], some "endo"⟩]
      "what is Diabetes" 85).matched = true := by
  obtain ⟨s, ⟨e, he, hes⟩, _, _, hhit, _⟩ :=
    C1_find_match_fuzzy_best [⟨1, "What is diabetes?", "ans", [], some "endo"⟩]
      "what is Diabetes" 85 (by decide) (by decide)
  have hse : e = ⟨1, "What is diabetes?", "ans", [], some "endo"⟩ := by
    simpa using he
  have hq1 : preprocess_text
      ((⟨1, "What is diabetes?", "ans", [], some "endo"⟩ : CacheEntry).question)
      = preprocess_text "what is Diabetes" := by decide
  have hs100 : s = 100 := by
    rw [← hes, hse, hq1]
    exact tokenSortSimilarity_self _
  obtain ⟨i, _, _, _, hmatched, _⟩ := hhit (by rw [hs100]; norm_num)
  exact hmatched

/-- C3: for a bearer token signed with a secret matching neither
configured secret, the decorator middleware rejects with HTTP 401 and a
success-false error body without ever running the wrapped handler (the
result is the same constant for every handler), while the inline decode
path of the service resolves the same token to the identity anonymous
and lets the request proceed. -/
theorem C3_wrong_secret_two_policies :
    ∀ (α : Type) (handler : String → α) (mwSecret accessSecret sigSecret : String)
      (expired : Bool) (cl : JwtClaims),
      sigSecret ≠ mwSecret → sigSecret ≠ accessSecret →
      authenticate_user mwSecret handler
          (some ⟨"Bearer", some (.signed sigSecret expired cl)⟩)
        = MwOutcome.rejected 401 false "Invalid token: Signature verification failed" ∧
      extract_user_id_from_token (some accessSecret)
          (some ⟨"Bearer", some (.signed sigSecret expired cl)⟩) = "anonymous" := by
  intro α handler mwSecret accessSecret sigSecret expired cl h1 h2
  constructor
  · simp [authenticate_user, jwtDecode, if_neg h1]
  · simp [extract_user_id_from_token, jwtDecode, if_neg h2]

/-- C3 witness: a concrete token signed with the wrong secret, rejected
by the middleware and downgraded to anonymous by the inline path. -/
theorem C3_wrong_secret_two_policies_witness :
    authenticate_user "mw-secret" (fun u => u)
        (some ⟨"Bearer", some (.signed "other" false ⟨some "u1", some "u1", some "u1"⟩)⟩)
      = MwOutcome.rejected 401 false "Invalid token: Signature verification failed" ∧
    extract_user_id_from_token (some "access-secret")
        (some ⟨"Bearer", some (.signed "other" false ⟨some "u1", some "u1", some "u1"⟩)⟩)
      = "anonymous" :=
  C3_wrong_secret_two_policies String (fun u => u) "mw-secret" "access-secret"
    "other" false ⟨some "u1", some "u1", some "u1"⟩ (by decide) (by decide)

/-- C10: the inline decode path is total, returning either the decoded
token id claim or the literal anonymous, and when the token-signing
secret is unset every request resolves to anonymous, including one with
a validly signed token carrying an id claim. -/
theorem C10_extract_user_id_total :
    (∀ hdr : Option AuthHeader, extract_user_id_from_token none hdr = "anonymous") ∧
    (∀ (secret : Option String) (hdr : Option AuthHeader),
      extract_user_id_from_token secret hdr = "anonymous" ∨
      ∃ (h : AuthHeader) (tok : Jwt) (cl : JwtClaims) (s uid : String),
        hdr = some h ∧ h.tokenPart = some tok ∧ secret = some s ∧
        jwtDecode s tok = .ok cl ∧ truthyStr cl.id = some uid ∧
        extract_user_id_from_token secret hdr = uid) := by
  constructor
  · intro hdr
    cases hdr with
    | none => rfl
    | some h =>
      obtain ⟨sch, tp⟩ := h
      cases tp with
      | none => rfl
      | some tok => rfl
  · intro secret hdr
    cases hdr with
    | none => exact Or.inl rfl
    | some h =>
      obtain ⟨sch, tp⟩ := h
      cases tp with
      | none => exact Or.inl rfl
      | some tok =>
        cases secret with
        | none => exact Or.inl rfl
        | some s =>
          cases hd : jwtDecode s tok with
          | error e =>
            exact Or.inl (by simp [extract_user_id_from_token, hd])
          | ok cl =>
            cases hid : truthyStr cl.id with
            | none =>
              exact Or.inl (by simp [extract_user_id_from_token, hd, hid])
            | some uid =>
              exact Or.inr ⟨⟨sch, some tok⟩, tok, cl, s, uid, rfl, rfl, rfl, hd, hid,
                by simp [extract_user_id_from_token, hd, hid]⟩

/-- C7: `speech_to_text` on a 200 response with a JSON object body
returns the transcript (empty when the field is absent), the detected
language, and the arithmetic mean of exactly the reported per-segment
confidences (absent when none is reported); on any non-200 response or
raised exception it returns nothing instead of raising. -/
theorem C7_speech_to_text_contract :
    ∀ (audio : String) (w : SttOutcome), audio ≠ "" →
      (∀ t lang segs, w = .httpResp 200 (.obj t lang segs) →
        ∃ r : SttResult, speech_to_text audio w = some r ∧
          (∀ tx, t = some tx → r.text = tx) ∧
          (t = none → r.text = "") ∧
          r.language = lang ∧
          (segConfs segs = [] → r.confidence = none) ∧
          (segConfs segs ≠ [] →
            r.confidence = some ((segConfs segs).sum / ((segConfs segs).length : ℚ)))) ∧
      (∀ st body, w = .httpResp st body → st ≠ 200 → speech_to_text audio w = none) ∧
      (∀ msg, w = .exn msg → speech_to_text audio w = none) := by
  intro audio w haudio
  refine ⟨?_, ?_, ?_⟩
  · intro t lang segs hw
    subst hw
    refine ⟨⟨t.getD "", lang, meanConfs segs⟩, ?_, ?_, ?_, rfl, ?_, ?_⟩
    · simp [speech_to_text, haudio]
    · intro tx ht
      subst ht
      rfl
    · intro ht
      subst ht
      rfl
    · intro hempty
      cases segs with
      | none => rfl
      | some l =>
        cases l with
        | nil => rfl
        | cons s0 rest =>
          show meanConfs (some (s0 :: rest)) = none
          simp only [meanConfs]
          rw [if_pos hempty]
    · intro hne
      cases segs with
      | none => exact absurd rfl hne
      | some l =>
        cases l with
        | nil => exact absurd rfl hne
        | cons s0 rest =>
          show meanConfs (some (s0 :: rest)) = _
          simp only [meanConfs]
          rw [if_neg hne]
  · intro st body hw hst
    subst hw
    simp [speech_to_text, haudio, hst]
  · intro msg hw
    subst hw
    simp [speech_to_text, haudio]

/-- C7 witness: a 200 object response with two reported confidences
(one segment without a confidence and one non-object segment skipped),
averaging to 3 over 2. -/
theorem C7_speech_to_text_contract_witness :
    ∃ r : SttResult,
      speech_to_text "AAA"
        (.httpResp 200 (.obj (some "hi doc") (some "en")
          (some [.dict (some 1), .nondict, .dict none, .dict (some 2)])))
        = some r ∧
      r.text = "hi doc" ∧ r.language = some "en" ∧
      r.confidence = some (3/2) := by
  obtain ⟨h200, _, _⟩ :=
    C7_speech_to_text_contract "AAA"
      (.httpResp 200 (.obj (some "hi doc") (some "en")
        (some [.dict (some 1), .nondict, .dict none, .dict (some 2)])))
      (by decide)
  obtain ⟨r, hr, htx, _, hlang, _, hconf⟩ :=
    h200 (some "hi doc") (some "en")
      (some [.dict (some 1), .nondict, .dict none, .dict (some 2)]) rfl
  refine ⟨r, hr, htx "hi doc" rfl, hlang, ?_⟩
  have hsc : segConfs (some [.dict (some 1), .nondict, .dict none, .dict (some 2)])
      = [1, 2] := by
    simp [segConfs]
  rw [hconf (by rw [hsc]; simp)]
  rw [hsc]
  norm_num

/-- C8 counterexample: with the Twilio client unconfigured and the `to`
field missing, the handler returns 500, not the 400 the claim requires
for every request with a missing field (the configuration check runs
first). -/
theorem C8_send_missing_field_counterexample :
    (send_whatsapp_message none (Except.ok ⟨none, some "hello"⟩)
      (Except.ok ("SM1", "queued"))).status = 500 ∧
    (send_whatsapp_message none (Except.ok ⟨none, some "hello"⟩)
      (Except.ok ("SM1", "queued"))).status ≠ 400 := by
  exact ⟨rfl, by decide⟩

/-- C8 (amended): the configuration check precedes field validation —
an unconfigured client yields 500 even when `to` or `message` is
missing; with a configured client a missing `to` or `message` yields
400; and with a configured client and both fields present a send
failure yields 500 carrying the error text. -/
theorem C8_send_whatsapp_message_statuses :
    ∀ (client : Option Unit) (body : Except String SendBody)
      (send : Except String (String × String)),
      (client = none →
        (send_whatsapp_message client body send).status = 500 ∧
        (send_whatsapp_message client body send).error = some "Twilio not configured") ∧
      (∀ b, client = some () → body = .ok b →
        (truthyStr b.toNum = none ∨ truthyStr b.message = none) →
        (send_whatsapp_message client body send).status = 400) ∧
      (∀ b tn m e, client = some () → body = .ok b →
        truthyStr b.toNum = some tn → truthyStr b.message = some m →
        send = .error e →
        (send_whatsapp_message client body send).status = 500 ∧
        (send_whatsapp_message client body send).error = some e) := by
  intro client body send
  refine ⟨?_, ?_, ?_⟩
  · intro hc
    subst hc
    exact ⟨rfl, rfl⟩
  · intro b hc hb hmiss
    subst hc
    subst hb
    rcases hmiss with hm | hm
    · simp [send_whatsapp_message, hm]
    · cases ht : truthyStr b.toNum with
      | none => simp [send_whatsapp_message, ht]
      | some tn => simp [send_whatsapp_message, ht, hm]
  · intro b tn m e hc hb htn hm hsend
    subst hc
    subst hb
    subst hsend
    constructor <;> simp [send_whatsapp_message, htn, hm]

/-- C8 witness: a configured client with a missing `to` field yields
400, and a configured failing send yields 500 with the error text. -/
theorem C8_send_whatsapp_message_statuses_witness :
    (send_whatsapp_message (some ()) (Except.ok ⟨none, some "hello"⟩)
      (Except.ok ("SM1", "queued"))).status = 400 ∧
    (send_whatsapp_message (some ()) (Except.ok ⟨some "+911234", some "hello"⟩)
      (Except.error "boom")).status = 500 :=
  ⟨(C8_send_whatsapp_message_statuses (some ()) (Except.ok ⟨none, some "hello"⟩)
      (Except.ok ("SM1", "queued"))).2.1 ⟨none, some "hello"⟩ rfl rfl (Or.inl rfl),
   ((C8_send_whatsapp_message_statuses (some ())
      (Except.ok ⟨some "+911234", some "hello"⟩) (Except.error "boom")).2.2
      ⟨some "+911234", some "hello"⟩ "+911234" "hello" "boom" rfl rfl
      (by decide) (by decide) rfl).1⟩

/-- C2: the WhatsApp webhook returns HTTP 200 with Content-Type text/xml
for every request and every combination of call outcomes, including
failed media download, failed transcription, failed answer generation
and failed persistence; and on each failure branch the XML body is the
corresponding human-readable apology (the voice apology for
download/transcription failures, the generic apology for any other
exception, and the fixed answer-generation apology embedded in the
reply when the RAG chain fails). -/
theorem C2_whatsapp_webhook_always_200_xml :
    ∀ (w : WhatsAppWorld) (f : WhatsAppForm),
      (whatsapp_webhook w f).status = 200 ∧
      (whatsapp_webhook w f).contentType = "text/xml" ∧
      (∀ e, w.outerErr = some e →
        (whatsapp_webhook w f).body = twiml [genericApology]) ∧
      (w.outerErr = none → isVoiceMsg f = true →
        (∀ e, w.download = .error e →
          (whatsapp_webhook w f).body = twiml [voiceApology]) ∧
        (∀ st c, w.download = .ok (st, c) → st ≠ 200 →
          (whatsapp_webhook w f).body = twiml [voiceApology]) ∧
        (∀ c, w.download = .ok (200, c) → speech_to_text c w.sttOutcome = none →
          (whatsapp_webhook w f).body = twiml [voiceApology]) ∧
        (∀ c r, w.download = .ok (200, c) → speech_to_text c w.sttOutcome = some r →
          r.text = "" → (whatsapp_webhook w f).body = twiml [voiceApology])) ∧
      (w.outerErr = none → isVoiceMsg f = false → pyStrip f.body ≠ "" →
        ∀ e, w.ai = .error e →
          (whatsapp_webhook w f).body = twiml [aiApology]) := by
  intro w f
  obtain ⟨oe, dl, stt, su, ai, sb⟩ := w
  cases oe with
  | some e =>
    refine ⟨rfl, rfl, fun _ _ => rfl, ?_, ?_⟩
    · intro h
      exact absurd h (by simp)
    · intro h
      exact absurd h (by simp)
  | none =>
    by_cases hv : isVoiceMsg f = true
    · -- voice branch
      cases dl with
      | error e =>
        refine ⟨?_, ?_, ?_, ?_, ?_⟩
        · simp [whatsapp_webhook, hv]
        · simp [whatsapp_webhook, hv]
        · intro e2 he2; exact absurd he2 (by simp)
        · intro _ _
          refine ⟨fun _ _ => by simp [whatsapp_webhook, hv], ?_, ?_, ?_⟩
          · intro st c hsc; exact absurd hsc (by simp)
          · intro c hsc; exact absurd hsc (by simp)
          · intro c r hsc; exact absurd hsc (by simp)
        · intro _ hvf; exact absurd hv (by simp [hvf])
      | ok p =>
        obtain ⟨st, c⟩ := p
        by_cases hst : st = 200
        · subst hst
          cases hstt : speech_to_text c stt with
          | none =>
            refine ⟨?_, ?_, ?_, ?_, ?_⟩
            · simp [whatsapp_webhook, hv, hstt]
            · simp [whatsapp_webhook, hv, hstt]
            · intro e2 he2; exact absurd he2 (by simp)
            · intro _ _
              refine ⟨?_, ?_, ?_, ?_⟩
              · intro e2 he2; exact absurd he2 (by simp)
              · intro st2 c2 hsc hne
                have : st2 = 200 := by
                  have h2 := hsc
                  injection h2 with h3
                  injection h3 with h4 h5
                  exact h4.symm
                exact absurd this hne
              · intro c2 hsc hs2
                simp [whatsapp_webhook, hv, hstt]
              · intro c2 r hsc hr
                have hc2 : c2 = c := by
                  injection hsc with h3
                  injection h3 with h4 h5
                  exact h5.symm
                subst hc2
                rw [hstt] at hr
                exact absurd hr (by simp)
            · intro _ hvf; exact absurd hv (by simp [hvf])
          | some r =>
            by_cases hrt : r.text = ""
            · refine ⟨?_, ?_, ?_, ?_, ?_⟩
              · simp [whatsapp_webhook, hv, hstt, hrt]
              · simp [whatsapp_webhook, hv, hstt, hrt]
              · intro e2 he2; exact absurd he2 (by simp)
              · intro _ _
                refine ⟨?_, ?_, ?_, ?_⟩
                · intro e2 he2; exact absurd he2 (by simp)
                · intro st2 c2 hsc hne
                  have : st2 = 200 := by
                    injection hsc with h3
                    injection h3 with h4 h5
                    exact h4.symm
                  exact absurd this hne
                · intro c2 hsc hs2
                  have hc2 : c2 = c := by
                    injection hsc with h3
                    injection h3 with h4 h5
                    exact h5.symm
                  subst hc2
                  rw [hstt] at hs2
                  exact absurd hs2 (by simp)
                · intro c2 r2 hsc hr2 hr2t
                  have hc2 : c2 = c := by
                    injection hsc with h3
                    injection h3 with h4 h5
                    exact h5.symm
                  subst hc2
                  rw [hstt] at hr2
                  have : r2 = r := by
                    injection hr2 with h6
                    exact h6.symm
                  subst this
                  simp [whatsapp_webhook, hv, hstt, hrt]
              · intro _ hvf; exact absurd hv (by simp [hvf])
            · -- successful voice flow
              refine ⟨?_, ?_, ?_, ?_, ?_⟩
              · simp [whatsapp_webhook, hv, hstt, hrt]
              · simp [whatsapp_webhook, hv, hstt, hrt]
              · intro e2 he2; exact absurd he2 (by simp)
              · intro _ _
                refine ⟨?_, ?_, ?_, ?_⟩
                · intro e2 he2; exact absurd he2 (by simp)
                · intro st2 c2 hsc hne
                  have : st2 = 200 := by
                    injection hsc with h3
                    injection h3 with h4 h5
                    exact h4.symm
                  exact absurd this hne
                · intro c2 hsc hs2
                  have hc2 : c2 = c := by
                    injection hsc with h3
                    injection h3 with h4 h5
                    exact h5.symm
                  subst hc2
                  rw [hstt] at hs2
                  exact absurd hs2 (by simp)
                · intro c2 r2 hsc hr2 hr2t
                  have hc2 : c2 = c := by
                    injection hsc with h3
                    injection h3 with h4 h5
                    exact h5.symm
                  subst hc2
                  rw [hstt] at hr2
                  have : r2 = r := by
                    injection hr2 with h6
                    exact h6.symm
                  subst this
                  exact absurd hr2t hrt
              · intro _ hvf; exact absurd hv (by simp [hvf])
        · -- non-200 download
          refine ⟨?_, ?_, ?_, ?_, ?_⟩
          · simp [whatsapp_webhook, hv, hst]
          · simp [whatsapp_webhook, hv, hst]
          · intro e2 he2; exact absurd he2 (by simp)
          · intro _ _
            refine ⟨?_, ?_, ?_, ?_⟩
            · intro e2 he2; exact absurd he2 (by simp)
            · intro st2 c2 hsc hne
              simp [whatsapp_webhook, hv, hst]
            · intro c2 hsc hs2
              simp only [Except.ok.injEq, Prod.mk.injEq] at hsc
              exact absurd hsc.1 hst
            · intro c2 r2 hsc hr2 hr2t
              simp only [Except.ok.injEq, Prod.mk.injEq] at hsc
              exact absurd hsc.1 hst
          · intro _ hvf; exact absurd hv (by simp [hvf])
    · -- non-voice branch
      have hvf : isVoiceMsg f = false := by
        cases hx : isVoiceMsg f with
        | true => exact absurd hx hv
        | false => rfl
      by_cases hb : pyStrip f.body = ""
      · -- empty acknowledgement
        refine ⟨?_, ?_, ?_, ?_, ?_⟩
        · simp [whatsapp_webhook, hvf, hb]
        · simp [whatsapp_webhook, hvf, hb]
        · intro e2 he2; exact absurd he2 (by simp)
        · intro _ hvt; exact absurd hvt (by simp [hvf])
        · intro _ _ hbne; exact absurd hb hbne
      · -- text flow
        refine ⟨?_, ?_, ?_, ?_, ?_⟩
        · simp [whatsapp_webhook, hvf, hb]
        · simp [whatsapp_webhook, hvf, hb]
        · intro e2 he2; exact absurd he2 (by simp)
        · intro _ hvt; exact absurd hvt (by simp [hvf])
        · intro _ _ _ e2 hai
          subst hai
          simp [whatsapp_webhook, hvf, hb, get_ai_response]

/-- C2 witness: a concrete request whose processing raises an unmodelled
exception still yields 200, text/xml, and the generic apology body. -/
theorem C2_whatsapp_webhook_always_200_xml_witness :
    (whatsapp_webhook
      ⟨some "boom", Except.ok (200, "A"), .exn "x", Except.ok (200, ""),
        Except.ok "hi", Except.ok (200, "")⟩
      ⟨"hello", "whatsapp:+911234", "", "", "0"⟩).status = 200 ∧
    (whatsapp_webhook
      ⟨some "boom", Except.ok (200, "A"), .exn "x", Except.ok (200, ""),
        Except.ok "hi", Except.ok (200, "")⟩
      ⟨"hello", "whatsapp:+911234", "", "", "0"⟩).contentType = "text/xml" ∧
    (whatsapp_webhook
      ⟨some "boom", Except.ok (200, "A"), .exn "x", Except.ok (200, ""),
        Except.ok "hi", Except.ok (200, "")⟩
      ⟨"hello", "whatsapp:+911234", "", "", "0"⟩).body = twiml [genericApology] := by
  have h := C2_whatsapp_webhook_always_200_xml
    ⟨some "boom", Except.ok (200, "A"), .exn "x", Except.ok (200, ""),
      Except.ok "hi", Except.ok (200, "")⟩
    ⟨"hello", "whatsapp:+911234", "", "", "0"⟩
  exact ⟨h.1, h.2.1, h.2.2.1 "boom" rfl⟩
